import Mathlib

set_option maxHeartbeats 1000000

deriving instance DecidableEq for Except

/-! Verification of the qst static HTTP server core, shallowly embedded from
src/http.rs, src/lib.rs and src/config.rs. Rust strings are modelled as
lists of characters; all string data handled by the core (request targets,
header text, the teapot page) is ASCII, so character counts agree with Rust
byte lengths. Fallible operations are modelled with Except and Option. -/

/-! Message model, from src/http.rs lines 5..22. -/

inductive HttpMethod
  | GET
  | HEAD
deriving DecidableEq

inductive HttpResponseCode
  | continue100
  | ok200
  | badRequest400
  | forbidden403
  | notFound404
  | methodNotAllowed405
  | imATeapot418
  | notImplemented501
  | httpVersionNotSupported505
deriving DecidableEq

structure HttpRequest where
  method : HttpMethod
  fetch : List Char
deriving DecidableEq

structure HttpResponse where
  code : HttpResponseCode
  content : Option (List Char)
  content_length : Option Nat
deriving DecidableEq

/-- The apostrophe character (used by the 418 reason phrase and page). -/
def apos : Char := Char.ofNat 39

/-- Reason-phrase rendering, from impl ToString for HttpResponseCode
(src/http.rs lines 24..40). -/
def HttpResponseCode.to_string : HttpResponseCode → List Char
  | .continue100 => ("100 Continue").data
  | .ok200 => ("200 Ok").data
  | .badRequest400 => ("400 Bad Request").data
  | .forbidden403 => ("403 Forbidden").data
  | .notFound404 => ("404 Not Found").data
  | .methodNotAllowed405 => ("405 Method Not Allowed").data
  | .imATeapot418 => ("418 I").data ++ apos :: ("m A Teapot").data
  | .notImplemented501 => ("501 Not Implemented").data
  | .httpVersionNotSupported505 => ("505 HTTP Version Not Supported").data

/-- Wire rendering of a response, from impl ToString for HttpResponse
(src/http.rs lines 170..194): status line, then the Content-Length header
block when content_length is present, then the body followed by CRLF when
content is present, then a final CRLF. -/
def HttpResponse.to_string (r : HttpResponse) : List Char :=
  ("HTTP/1.1 ").data ++ r.code.to_string ++ ("\r\n").data
    ++ (match r.content_length with
        | some length => ("Content-Length: ").data ++ (Nat.repr length).data ++ ("\r\n\r\n").data
        | none => [])
    ++ (match r.content with
        | some content => content ++ ("\r\n").data
        | none => [])
    ++ ("\r\n").data

/-- HttpResponse::bad_request_400 (src/http.rs lines 161..167). -/
def HttpResponse.bad_request_400 : HttpResponse :=
  ⟨.badRequest400, none, none⟩

/-! Request parsing, from HttpRequest::parse_from_lines_iterator
(src/http.rs lines 49..81). -/

/-- Rust char::is_ascii_whitespace: space, tab, newline, form feed,
carriage return. -/
def isAsciiWhitespace (c : Char) : Bool :=
  c == ' ' || c == Char.ofNat 9 || c == Char.ofNat 10
    || c == Char.ofNat 12 || c == Char.ofNat 13

/-- One step of Rust split_ascii_whitespace: skip leading ASCII whitespace,
then return the next maximal whitespace-free token and the unconsumed rest
of the line (none when only whitespace remains). -/
def nextTok (s : List Char) : Option (List Char × List Char) :=
  match s.dropWhile isAsciiWhitespace with
  | [] => none
  | c :: cs =>
    some ((c :: cs).takeWhile (fun x => !isAsciiWhitespace x),
          (c :: cs).dropWhile (fun x => !isAsciiWhitespace x))

/-- HttpRequest::parse_from_lines_iterator (src/http.rs lines 49..81).
The line iterator is modelled as a list of read results; only the first
element is ever examined. A missing first line, a failed read, or a line
with fewer than two whitespace-separated tokens yields the 400 response; a
method token other than GET or HEAD yields the bodiless 501 response. -/
def HttpRequest.parse_from_lines_iterator
    (lines : List (Except Unit (List Char))) : Except HttpResponse HttpRequest :=
  match lines with
  | .ok line :: _ =>
    match nextTok line with
    | some (method, rest) =>
      match nextTok rest with
      | some (fetch, _) =>
        if method = ("GET").data then .ok ⟨.GET, fetch⟩
        else if method = ("HEAD").data then .ok ⟨.HEAD, fetch⟩
        else .error ⟨.notImplemented501, none, none⟩
      | none => .error HttpResponse.bad_request_400
    | none => .error HttpResponse.bad_request_400
  | _ => .error HttpResponse.bad_request_400

/-! Path resolution, from HttpRequest::match_fetch (src/http.rs lines
105..150). -/

/-- Rust str::find(pat).is_some() for the two-character patterns used by
match_fetch: does the pair a, b occur contiguously in the list. -/
def containsPair (a b : Char) : List Char → Bool
  | x :: y :: r => (x == a && y == b) || containsPair a b (y :: r)
  | _ => false

/-- Rust str::ends_with(char). -/
def endsWithChar (a : Char) : List Char → Bool
  | [] => false
  | [c] => c == a
  | _ :: c :: r => endsWithChar a (c :: r)

/-- Rust str::starts_with(char). -/
def startsWithChar (a : Char) : List Char → Bool
  | [] => false
  | c :: _ => c == a

/-- Rust str::replace("%20", " "): scan left to right and replace every
(leftmost, non-overlapping) occurrence of the three characters percent two
zero by a single space. -/
def replace20 : List Char → List Char
  | [] => []
  | [c] => [c]
  | [c, d] => [c, d]
  | c :: d :: e :: r =>
    if c = '%' ∧ d = '2' ∧ e = '0' then ' ' :: replace20 r
    else c :: replace20 (d :: e :: r)

/-- The literal teapot page from src/http.rs lines 109..126. -/
def coffeeContent : List Char :=
  ("<!DOCTYPE html>\n<html lang=\"en\">\n    <head>\n        <meta charset=\"utf-8\">\n        <title>QST Teapots Inc.</title>\n    </head>\n\n    <body>\n        <h1>418 - I").data
    ++ apos :: ("m a Teapot</h1>\n        <p>\n        The server refuses to brew coffee because it is a teapot.\n        </p>\n    </body>\n</html>\n").data

/-- HttpRequest::match_fetch (src/http.rs lines 105..150): map the raw
fetch target to a filesystem path rooted at the working directory, or fail
with a 418 (teapot) or 403 (forbidden) response. The source binds the
replaced target to a local variable before the final test; the binding is
inlined here. -/
def HttpRequest.match_fetch (req : HttpRequest) (default : List Char) :
    Except HttpResponse (List Char) :=
  if req.fetch = ("/").data then
    .ok (("./").data ++ default)
  else if req.fetch = ("//coffee").data then
    .error ⟨.imATeapot418, some coffeeContent, some coffeeContent.length⟩
  else if containsPair '/' '/' req.fetch || containsPair '.' '.' req.fetch
      || endsWithChar '/' req.fetch then
    .error ⟨.forbidden403, none, none⟩
  else if startsWithChar '/' (replace20 req.fetch) then
    .ok ('.' :: replace20 req.fetch)
  else
    .ok (("./").data ++ replace20 req.fetch)

/-! Per-connection handler, from respond_http_request (src/lib.rs lines
24..74). File reads are modelled by a map from paths to optional contents,
and writing the response is modelled by returning it. The three unwrap
calls on the character iterator of the resolved path are modelled by the
three-element pattern: a resolved path shorter than three characters would
panic in the source, which is modelled as the outcome none. -/

def respond_http_request (fs : List Char → Option (List Char))
    (lines : List (Except Unit (List Char)))
    (default_file : List Char) (err404_file : Option (List Char)) :
    Option HttpResponse :=
  match HttpRequest.parse_from_lines_iterator lines with
  | .error response => some response
  | .ok request =>
    match request.match_fetch default_file with
    | .error response => some response
    | .ok fetch =>
      match fetch with
      | _ :: _ :: c2 :: _ =>
        if c2 = '_' then some ⟨.forbidden403, none, none⟩
        else
          match fs fetch with
          | some content => some ⟨.ok200, some content, some content.length⟩
          | none =>
            match err404_file with
            | some file =>
              match fs file with
              | some s => some ⟨.notFound404, some s, some s.length⟩
              | none => some ⟨.notFound404, none, none⟩
            | none => some ⟨.notFound404, none, none⟩
      | _ => none

/-! Request-limited admission, from start_server (src/lib.rs lines
173..188) composed with the serve loop (lines 109..147). The counting
closure keeps a mutable count starting at zero; while count is at most the
limit it increments the count and polls the listener iterator, and once
count exceeds the limit it reports end-of-input. serve admits connections
until the closure reports end-of-input. Connections are opaque; the
function returns how many connections are admitted when the listener can
supply the given list. -/

def admissions (limit : Nat) : Nat → List Unit → Nat
  | count, conns =>
    if count ≤ limit then
      match conns with
      | [] => 0
      | _ :: rest => 1 + admissions limit (count + 1) rest
    else 0

/-! Concurrency model for the serve loop (src/lib.rs lines 15 and
109..147). THREAD_COUNT is a plain (non-atomic) shared counter. The control
thread, per admission, first busy-spins reading the counter until it is
below max_threads, then performs the non-atomic increment THREAD_COUNT += 1
as a separate read followed by a write, then spawns a handler. Each handler
runs respond_http_request and then performs the non-atomic decrement
THREAD_COUNT -= 1, again a read followed by a write. Every individual read
or write of the counter is one atomic step; the interleaving of steps is
chosen by a schedule. Connections are assumed always available and
max_threads is assumed set, the situation the claim is about. -/

inductive CtrlPc
  | spin
  | incRead
  | incWrite (reg : Int)
deriving DecidableEq

inductive HandlerPc
  | work
  | decWrite (reg : Int)
deriving DecidableEq

structure SysState where
  counter : Int
  ctrl : CtrlPc
  handlers : List HandlerPc
deriving DecidableEq

/-- One step of the control thread with thread cap m: the spin check reads
the counter and proceeds only if it is below m (src/lib.rs lines 113..122);
the increment is a read (line 124..126 read part) then a write of the read
value plus one, after which the new handler thread starts (lines 134..138). -/
def ctrlStep (m : Int) (s : SysState) : SysState :=
  match s.ctrl with
  | .spin => if s.counter < m then { s with ctrl := .incRead } else s
  | .incRead => { s with ctrl := .incWrite s.counter }
  | .incWrite r => ⟨r + 1, .spin, s.handlers ++ [.work]⟩

/-- One step of handler i: a working handler finishes respond_http_request
and reads the counter (src/lib.rs line 137 read part); a handler holding a
read value writes it minus one and exits (line 137 write part). -/
def handlerStep (s : SysState) (i : Nat) : SysState :=
  match s.handlers[i]? with
  | some .work => { s with handlers := s.handlers.set i (.decWrite s.counter) }
  | some (.decWrite r) => ⟨r - 1, s.ctrl, s.handlers.eraseIdx i⟩
  | none => s

/-- Run a schedule: none schedules the control thread, some i schedules
handler i. -/
def run (m : Int) : List (Option Nat) → SysState → SysState
  | [], s => s
  | none :: sch, s => run m sch (ctrlStep m s)
  | some i :: sch, s => run m sch (handlerStep s i)

/-- Handlers currently executing respond_http_request. -/
def inFlight (s : SysState) : Nat :=
  (s.handlers.filter (fun h => match h with | .work => true | _ => false)).length

def initState : SysState := ⟨0, .spin, []⟩

/-- A schedule for cap 2 in which the first handler finishes and reads the
counter between the read and the write of the increment performed by the
control thread for the second admission, so the write of the decrement is
lost and the counter undercounts the handlers in flight. -/
def racySchedule : List (Option Nat) :=
  [none, none, none, none, none, some 0, none, some 0,
   none, none, none, none, none, none]

/-! Helper lemmas about the admission counter of start_server. -/

lemma admissions_stop (limit count : Nat) (conns : List Unit) (h : limit < count) :
    admissions limit count conns = 0 := by
  cases conns <;> simp [admissions, Nat.not_le.mpr h]

lemma admissions_eq (limit : Nat) :
    ∀ (conns : List Unit) (count : Nat), count ≤ limit →
      admissions limit count conns = min (limit + 1 - count) conns.length := by
  intro conns
  induction conns with
  | nil => intro count h; simp [admissions, h]
  | cons c rest ih =>
    intro count h
    by_cases h2 : count + 1 ≤ limit
    · have hrec := ih (count + 1) h2
      simp only [admissions, if_pos h, hrec, List.length_cons]
      omega
    · have h0 : admissions limit (count + 1) rest = 0 := admissions_stop _ _ _ (by omega)
      simp only [admissions, if_pos h, h0, List.length_cons]
      omega

/-- C1: with limit_requests set to N, the counting closure of start_server
checks count against the limit with a non-strict comparison, so the serve
loop admits min (N + 1) available connections instead of exactly N; in
particular with N = 0 and one available connection the server admits one
connection rather than zero, contradicting the intent recorded by the test
server_starts_and_quit_with_limit_0 and by the specification. -/
theorem limit_requests_admits_one_extra :
    (∀ (limit : Nat) (conns : List Unit),
      admissions limit 0 conns = min (limit + 1) conns.length)
      ∧ admissions 0 0 [()] = 1 :=
  ⟨fun limit conns => by simpa using admissions_eq limit conns 0 (Nat.zero_le _),
   by rfl⟩

/-- C2: the claim that the number of concurrently running handlers never
exceeds max_threads fails on the code: THREAD_COUNT is a plain shared
counter updated by non-atomic read-then-write increments and decrements,
and under the schedule racySchedule (cap 2) the first handler reads the
counter before the control thread writes its increment, the handler then
overwrites that increment with its decrement, and the undercounting
counter lets the control thread admit two further handlers while one is
still in flight: three handlers run concurrently with the cap set to 2. -/
theorem thread_count_race_overadmission :
    inFlight (run 2 racySchedule initState) = 3 := by decide

/-- C3: a target other than the slash root and the coffee target that
contains a double slash, contains a double dot, or ends with a slash makes
match_fetch fail with the 403 response carrying no body and no content
length. -/
theorem forbidden_targets_403 (req : HttpRequest) (d : List Char)
    (h1 : req.fetch ≠ ("/").data) (h2 : req.fetch ≠ ("//coffee").data)
    (h3 : containsPair '/' '/' req.fetch = true ∨ containsPair '.' '.' req.fetch = true
      ∨ endsWithChar '/' req.fetch = true) :
    req.match_fetch d = .error ⟨.forbidden403, none, none⟩ := by
  have h3b : (containsPair '/' '/' req.fetch || containsPair '.' '.' req.fetch
      || endsWithChar '/' req.fetch) = true := by
    rcases h3 with h | h | h <;> simp [h]
  unfold HttpRequest.match_fetch
  rw [if_neg h1, if_neg h2, if_pos h3b]

/-- C3 witness: the three concrete forbidden targets from the tests. -/
theorem forbidden_targets_403_witness :
    HttpRequest.match_fetch ⟨.GET, ("../not_allow.png").data⟩ (("index.html").data)
        = .error ⟨.forbidden403, none, none⟩
      ∧ HttpRequest.match_fetch ⟨.GET, ("/not//allow.jpg").data⟩ (("index.html").data)
        = .error ⟨.forbidden403, none, none⟩
      ∧ HttpRequest.match_fetch ⟨.GET, ("not_allow/").data⟩ (("index.html").data)
        = .error ⟨.forbidden403, none, none⟩ :=
  ⟨forbidden_targets_403 _ _ (by decide) (by decide) (Or.inr (Or.inl (by decide))),
   forbidden_targets_403 _ _ (by decide) (by decide) (Or.inl (by decide)),
   forbidden_targets_403 _ _ (by decide) (by decide) (Or.inr (Or.inr (by decide)))⟩

/-- C5: the exact coffee target makes match_fetch fail with the fixed 418
response whose body is the non-empty literal teapot page and whose content
length is present and equals the length of that body. -/
theorem coffee_teapot_418 :
    (∀ (m : HttpMethod) (d : List Char),
      HttpRequest.match_fetch ⟨m, ("//coffee").data⟩ d
        = .error ⟨.imATeapot418, some coffeeContent, some coffeeContent.length⟩)
      ∧ coffeeContent ≠ [] := by
  constructor
  · intro m d
    unfold HttpRequest.match_fetch
    split_ifs with h1 h2 h3 h4
    · exact absurd (show (("//coffee").data : List Char) = ("/").data from h1) (by decide)
    · rfl
    · exact absurd rfl h2
    · exact absurd rfl h2
    · exact absurd rfl h2
  · decide

/-- C4: the slash root resolves to the default file name appended to the
dot-slash prefix, and any target that reaches the final rewriting rule
resolves to the target with every percent-two-zero occurrence replaced by
one space, prefixed with a dot when the replaced target starts with a
slash and with dot slash otherwise. -/
theorem fetch_rewrite :
    (∀ (m : HttpMethod) (d : List Char),
      HttpRequest.match_fetch ⟨m, ("/").data⟩ d = .ok (("./").data ++ d))
      ∧ ∀ (req : HttpRequest) (d : List Char),
        req.fetch ≠ ("/").data → req.fetch ≠ ("//coffee").data →
        containsPair '/' '/' req.fetch = false → containsPair '.' '.' req.fetch = false →
        endsWithChar '/' req.fetch = false →
        req.match_fetch d
          = .ok (if startsWithChar '/' (replace20 req.fetch) then '.' :: replace20 req.fetch
                 else ("./").data ++ replace20 req.fetch) := by
  constructor
  · intro m d
    unfold HttpRequest.match_fetch
    rw [if_pos rfl]
  · intro req d h1 h2 hA hB hC
    unfold HttpRequest.match_fetch
    rw [if_neg h1, if_neg h2, if_neg (by simp [hA, hB, hC])]
    split_ifs <;> rfl

/-- C4 witness: concrete resolutions through both final branches,
including a percent-twenty replacement. -/
theorem fetch_rewrite_witness :
    HttpRequest.match_fetch ⟨.GET, ("/").data⟩ (("index.html").data)
        = .ok (("./index.html").data)
      ∧ HttpRequest.match_fetch ⟨.GET, ("/test.js").data⟩ (("index.html").data)
        = .ok (("./test.js").data)
      ∧ HttpRequest.match_fetch ⟨.GET, ("my%20file.css").data⟩ (("index.html").data)
        = .ok (("./my file.css").data) :=
  ⟨(fetch_rewrite.1 .GET (("index.html").data)).trans (by decide),
   (fetch_rewrite.2 ⟨.GET, ("/test.js").data⟩ (("index.html").data)
      (by decide) (by decide) (by decide) (by decide) (by decide)).trans (by decide),
   (fetch_rewrite.2 ⟨.GET, ("my%20file.css").data⟩ (("index.html").data)
      (by decide) (by decide) (by decide) (by decide) (by decide)).trans (by decide)⟩

/-- C7: a bodiless 404 response renders to exactly the 404 status line
followed by the final CRLF, and a 200 response with body b and a content
length equal to the length of b renders to the status line, then the
Content-Length header block, then the body, one CRLF, and the final CRLF. -/
theorem response_rendering :
    (HttpResponse.to_string ⟨.notFound404, none, none⟩
        = ("HTTP/1.1 404 Not Found\r\n\r\n").data)
      ∧ ∀ (b : List Char) (n : Nat), n = b.length →
        HttpResponse.to_string ⟨.ok200, some b, some n⟩
          = ("HTTP/1.1 200 Ok\r\n").data ++ ("Content-Length: ").data
            ++ (Nat.repr n).data ++ ("\r\n\r\n").data ++ b ++ ("\r\n").data
            ++ ("\r\n").data := by
  constructor
  · decide
  · intro b n hn
    have h1 : (("HTTP/1.1 200 Ok\r\n").data : List Char)
        = ("HTTP/1.1 ").data ++ ("200 Ok").data ++ ("\r\n").data := by decide
    rw [h1]
    simp [HttpResponse.to_string, HttpResponseCode.to_string, List.append_assoc]

/-- C7 witness: the 200 rendering at a concrete two-byte body. -/
theorem response_rendering_witness :
    HttpResponse.to_string ⟨.ok200, some (("hi").data), some 2⟩
      = ("HTTP/1.1 200 Ok\r\n").data ++ ("Content-Length: ").data
        ++ (Nat.repr 2).data ++ ("\r\n\r\n").data ++ ("hi").data ++ ("\r\n").data
        ++ ("\r\n").data :=
  response_rendering.2 (("hi").data) 2 (by decide)

/-! Lemmas about the percent-twenty replacement and the two-character
pattern search, used for the path-safety invariants of match_fetch. -/

lemma containsPair_cons_false {a b c : Char} {s : List Char}
    (h : containsPair a b (c :: s) = false) : containsPair a b s = false := by
  cases s with
  | nil => rfl
  | cons y ys =>
    have he : containsPair a b (c :: y :: ys)
        = ((c == a && y == b) || containsPair a b (y :: ys)) := rfl
    rw [he] at h
    exact (Bool.or_eq_false_iff.mp h).2

lemma containsPair_cons2_false {a b x y : Char} {s : List Char}
    (hxy : (x == a && y == b) = false)
    (hs : containsPair a b (y :: s) = false) :
    containsPair a b (x :: y :: s) = false := by
  have he : containsPair a b (x :: y :: s)
      = ((x == a && y == b) || containsPair a b (y :: s)) := rfl
  rw [he, hxy, hs]
  rfl

lemma replace20_eq_pos {c d e : Char} {r : List Char}
    (h : c = '%' ∧ d = '2' ∧ e = '0') :
    replace20 (c :: d :: e :: r) = ' ' :: replace20 r := by
  simp [replace20, h]

lemma replace20_eq_neg {c d e : Char} {r : List Char}
    (h : ¬(c = '%' ∧ d = '2' ∧ e = '0')) :
    replace20 (c :: d :: e :: r) = c :: replace20 (d :: e :: r) := by
  simp [replace20, h]

lemma replace20_cons_ne_percent {c : Char} (r : List Char) (h : c ≠ '%') :
    replace20 (c :: r) = c :: replace20 r := by
  match r with
  | [] => simp [replace20]
  | [d] => simp [replace20]
  | d :: e :: u => exact replace20_eq_neg (fun hc => h hc.1)

lemma replace20_ne_nil : ∀ t : List Char, t ≠ [] → replace20 t ≠ [] := by
  intro t
  induction t using replace20.induct with
  | case1 => intro h; exact absurd rfl h
  | case2 c => intro _; simp [replace20]
  | case3 c d => intro _; simp [replace20]
  | case4 c d e r h ih => intro _; simp [replace20, h]
  | case5 c d e r h ih => intro _; simp [replace20, h]

lemma replace20_head : ∀ (t : List Char) (a : Char) (r2 : List Char),
    replace20 t = a :: r2 → a = ' ' ∨ ∃ r, t = a :: r := by
  intro t
  induction t using replace20.induct with
  | case1 => intro a r2 heq; simp [replace20] at heq
  | case2 c =>
    intro a r2 heq
    simp only [replace20] at heq
    injection heq with h1 h2
    exact Or.inr ⟨[], by rw [h1]⟩
  | case3 c d =>
    intro a r2 heq
    simp only [replace20] at heq
    injection heq with h1 h2
    exact Or.inr ⟨[d], by rw [h1]⟩
  | case4 c d e r h ih =>
    intro a r2 heq
    rw [replace20_eq_pos h] at heq
    injection heq with h1 h2
    exact Or.inl h1.symm
  | case5 c d e r h ih =>
    intro a r2 heq
    rw [replace20_eq_neg h] at heq
    injection heq with h1 h2
    exact Or.inr ⟨d :: e :: r, by rw [h1]⟩

lemma containsPair_replace20 {a b : Char} (ha : a ≠ ' ') (hb : b ≠ ' ') :
    ∀ t : List Char, containsPair a b t = false →
      containsPair a b (replace20 t) = false := by
  intro t
  induction t using replace20.induct with
  | case1 => intro h; simpa [replace20] using h
  | case2 c => intro h; simpa [replace20] using h
  | case3 c d => intro h; simpa [replace20] using h
  | case4 c d e r hc ih =>
    intro h
    rw [replace20_eq_pos hc]
    have hr : containsPair a b r = false :=
      containsPair_cons_false (containsPair_cons_false (containsPair_cons_false h))
    have hrr := ih hr
    cases hrep : replace20 r with
    | nil => rfl
    | cons x xs =>
      rw [hrep] at hrr
      refine containsPair_cons2_false ?_ hrr
      rw [beq_eq_false_iff_ne.mpr (Ne.symm ha), Bool.false_and]
  | case5 c d e r hc ih =>
    intro h
    rw [replace20_eq_neg hc]
    have hder : containsPair a b (d :: e :: r) = false := containsPair_cons_false h
    have hrr := ih hder
    cases hrep : replace20 (d :: e :: r) with
    | nil => rfl
    | cons x xs =>
      rw [hrep] at hrr
      refine containsPair_cons2_false ?_ hrr
      by_cases hca : c = a
      · rcases replace20_head _ _ _ hrep with hsp | ⟨rr, hxx⟩
        · subst hsp
          rw [beq_eq_false_iff_ne.mpr (Ne.symm hb), Bool.and_false]
        · injection hxx with hdx
          have he2 : containsPair a b (c :: d :: e :: r)
              = ((c == a && d == b) || containsPair a b (d :: e :: r)) := rfl
          rw [he2] at h
          have h1 := (Bool.or_eq_false_iff.mp h).1
          rw [← hdx]
          exact h1
      · rw [beq_eq_false_iff_ne.mpr hca, Bool.false_and]

lemma endsWithChar_cons_of_ne_nil {a c : Char} {s : List Char} (h : s ≠ []) :
    endsWithChar a (c :: s) = endsWithChar a s := by
  cases s with
  | nil => exact absurd rfl h
  | cons y ys => rfl

lemma endsWithChar_replace20 {a : Char} (ha : a ≠ ' ') :
    ∀ t : List Char, endsWithChar a t = false →
      endsWithChar a (replace20 t) = false := by
  intro t
  induction t using replace20.induct with
  | case1 => intro h; simpa [replace20] using h
  | case2 c => intro h; simpa [replace20] using h
  | case3 c d => intro h; simpa [replace20] using h
  | case4 c d e r hc ih =>
    intro h
    rw [replace20_eq_pos hc]
    by_cases hr : r = []
    · subst hr
      have hsp : (' ' == a) = false := beq_eq_false_iff_ne.mpr (Ne.symm ha)
      simpa [replace20, endsWithChar] using hsp
    · have hrne : replace20 r ≠ [] := replace20_ne_nil r hr
      rw [endsWithChar_cons_of_ne_nil hrne]
      apply ih
      rw [endsWithChar_cons_of_ne_nil (by simp), endsWithChar_cons_of_ne_nil (by simp),
        endsWithChar_cons_of_ne_nil hr] at h
      exact h
  | case5 c d e r hc ih =>
    intro h
    rw [replace20_eq_neg hc]
    have hne : replace20 (d :: e :: r) ≠ [] := replace20_ne_nil _ (by simp)
    rw [endsWithChar_cons_of_ne_nil hne]
    apply ih
    rw [endsWithChar_cons_of_ne_nil (by simp)] at h
    exact h

/-- The slash root branch of match_fetch. -/
lemma match_fetch_root (m : HttpMethod) (d : List Char) :
    HttpRequest.match_fetch ⟨m, ("/").data⟩ d = .ok (("./").data ++ d) := by
  unfold HttpRequest.match_fetch
  rw [if_pos rfl]

/-- Safety of every path produced by the final rewriting rule: for a
non-empty target other than the slash root, a successful resolution starts
with dot slash, has at least three characters, contains no double slash
and no double dot, and does not end with a slash. -/
lemma match_fetch_ok_final (req : HttpRequest) (d path : List Char)
    (h0 : req.fetch ≠ []) (h1 : req.fetch ≠ ("/").data)
    (hok : req.match_fetch d = .ok path) :
    path.take 2 = ("./").data ∧ 3 ≤ path.length
      ∧ containsPair '/' '/' path = false ∧ containsPair '.' '.' path = false
      ∧ endsWithChar '/' path = false := by
  unfold HttpRequest.match_fetch at hok
  split_ifs at hok with hA hB hC hD
  · exact absurd hA h1
  · obtain ⟨hP1, hP2, hP3⟩ : containsPair '/' '/' req.fetch = false
        ∧ containsPair '.' '.' req.fetch = false
        ∧ endsWithChar '/' req.fetch = false := by
      have hf : (containsPair '/' '/' req.fetch || containsPair '.' '.' req.fetch
          || endsWithChar '/' req.fetch) = false := by simpa using hC
      simpa [Bool.or_eq_false_iff, and_assoc] using hf
    rw [Except.ok.injEq] at hok
    subst hok
    cases hrep : replace20 req.fetch with
    | nil => rw [hrep] at hD; simp [startsWithChar] at hD
    | cons x xs =>
      rw [hrep] at hD
      have hx : x = '/' := by simpa [startsWithChar] using hD
      subst hx
      rcases replace20_head _ _ _ hrep with hsp | ⟨r, htr⟩
      · exact absurd hsp (by decide)
      · have hrne : r ≠ [] := by
          intro hre
          rw [hre] at htr
          exact h1 htr
        have hxs : replace20 req.fetch = '/' :: replace20 r := by
          rw [htr]
          exact replace20_cons_ne_percent r (by decide)
        have hxseq : xs = replace20 r := by
          rw [hrep] at hxs
          injection hxs with _ h2
        have hxsne : xs ≠ [] := by
          rw [hxseq]
          exact replace20_ne_nil r hrne
        have hcp1 : containsPair '/' '/' ('/' :: xs) = false := by
          rw [← hrep]
          exact containsPair_replace20 (by decide) (by decide) _ hP1
        have hcp2 : containsPair '.' '.' ('/' :: xs) = false := by
          rw [← hrep]
          exact containsPair_replace20 (by decide) (by decide) _ hP2
        have hend : endsWithChar '/' ('/' :: xs) = false := by
          rw [← hrep]
          exact endsWithChar_replace20 (by decide) _ hP3
        refine ⟨rfl, ?_, ?_, ?_, ?_⟩
        · have := List.length_pos.mpr hxsne
          simp only [List.length_cons]
          omega
        · exact containsPair_cons2_false (by decide) hcp1
        · exact containsPair_cons2_false (by decide) hcp2
        · rw [endsWithChar_cons_of_ne_nil (by simp)]
          exact hend
  · obtain ⟨hP1, hP2, hP3⟩ : containsPair '/' '/' req.fetch = false
        ∧ containsPair '.' '.' req.fetch = false
        ∧ endsWithChar '/' req.fetch = false := by
      have hf : (containsPair '/' '/' req.fetch || containsPair '.' '.' req.fetch
          || endsWithChar '/' req.fetch) = false := by simpa using hC
      simpa [Bool.or_eq_false_iff, and_assoc] using hf
    rw [Except.ok.injEq] at hok
    subst hok
    have hre : replace20 req.fetch ≠ [] := replace20_ne_nil _ h0
    cases hrep : replace20 req.fetch with
    | nil => exact absurd hrep hre
    | cons x xs =>
      have hx : (x == '/') = false := by
        rw [hrep] at hD
        simpa [startsWithChar] using hD
      have hcp1 : containsPair '/' '/' (x :: xs) = false := by
        rw [← hrep]
        exact containsPair_replace20 (by decide) (by decide) _ hP1
      have hcp2 : containsPair '.' '.' (x :: xs) = false := by
        rw [← hrep]
        exact containsPair_replace20 (by decide) (by decide) _ hP2
      have hend : endsWithChar '/' (x :: xs) = false := by
        rw [← hrep]
        exact endsWithChar_replace20 (by decide) _ hP3
      have hsh : ("./").data ++ (x :: xs) = '.' :: '/' :: x :: xs := rfl
      rw [hsh]
      refine ⟨rfl, ?_, ?_, ?_, ?_⟩
      · simp only [List.length_cons]
        omega
      · refine containsPair_cons2_false (by decide) ?_
        refine containsPair_cons2_false ?_ hcp1
        rw [hx, Bool.and_false]
      · refine containsPair_cons2_false (by decide) ?_
        refine containsPair_cons2_false ?_ hcp2
        rw [show (('/' : Char) == ('.' : Char)) = false from by decide, Bool.false_and]
      · rw [endsWithChar_cons_of_ne_nil (by simp), endsWithChar_cons_of_ne_nil (by simp)]
        exact hend

/-! Lemmas about the whitespace tokenizer. -/

/-- The rest of a line sitting after a token: either nothing, or text that
begins with an ASCII whitespace separator. -/
def tokBoundary (trail : List Char) : Prop :=
  trail = [] ∨ ∃ c r, trail = c :: r ∧ isAsciiWhitespace c = true

lemma dropWhile_head_false {p : Char → Bool} :
    ∀ {s : List Char} {c : Char} {cs : List Char},
      s.dropWhile p = c :: cs → p c = false := by
  intro s
  induction s with
  | nil => intro c cs h; simp at h
  | cons a as ih =>
    intro c cs h
    by_cases hp : p a = true
    · rw [List.dropWhile_cons_of_pos hp] at h
      exact ih h
    · rw [List.dropWhile_cons_of_neg hp] at h
      injection h with h1 h2
      rw [← h1]
      exact Bool.eq_false_iff.mpr hp

lemma takeWhile_append_all {p : Char → Bool} :
    ∀ (l r : List Char), (∀ a ∈ l, p a = true) →
      (l ++ r).takeWhile p = l ++ r.takeWhile p := by
  intro l
  induction l with
  | nil => intro r _; simp
  | cons a as ih =>
    intro r h
    rw [List.cons_append, List.takeWhile_cons_of_pos (h a (by simp)),
      ih r (fun x hx => h x (by simp [hx])), List.cons_append]

lemma dropWhile_append_all {p : Char → Bool} :
    ∀ (l r : List Char), (∀ a ∈ l, p a = true) →
      (l ++ r).dropWhile p = r.dropWhile p := by
  intro l
  induction l with
  | nil => intro r _; simp
  | cons a as ih =>
    intro r h
    rw [List.cons_append, List.dropWhile_cons_of_pos (h a (by simp)),
      ih r (fun x hx => h x (by simp [hx]))]

lemma nextTok_token (f trail : List Char) (hf : f ≠ [])
    (hfw : ∀ c ∈ f, isAsciiWhitespace c = false) (ht : tokBoundary trail) :
    nextTok (f ++ trail) = some (f, trail) := by
  obtain ⟨c, cs, rfl⟩ := List.exists_cons_of_ne_nil hf
  have hcw : isAsciiWhitespace c = false := hfw c (by simp)
  have hall : ∀ a ∈ c :: cs, (!isAsciiWhitespace a) = true := by
    intro a ha
    simp [hfw a ha]
  unfold nextTok
  rw [List.cons_append, List.dropWhile_cons_of_neg (by simp [hcw])]
  show some ((c :: (cs ++ trail)).takeWhile (fun x => !isAsciiWhitespace x),
      (c :: (cs ++ trail)).dropWhile (fun x => !isAsciiWhitespace x)) = some (c :: cs, trail)
  rw [show c :: (cs ++ trail) = (c :: cs) ++ trail from rfl,
    takeWhile_append_all _ _ hall, dropWhile_append_all _ _ hall]
  rcases ht with rfl | ⟨dd, rr, rfl, hd⟩
  · simp
  · rw [List.takeWhile_cons_of_neg (by simp [hd]), List.dropWhile_cons_of_neg (by simp [hd])]
    simp

lemma nextTok_ws_cons {c : Char} (s : List Char) (h : isAsciiWhitespace c = true) :
    nextTok (c :: s) = nextTok s := by
  unfold nextTok
  rw [List.dropWhile_cons_of_pos h]

lemma nextTok_some_ne_nil {s t r : List Char} (h : nextTok s = some (t, r)) :
    t ≠ [] := by
  unfold nextTok at h
  cases hd : s.dropWhile isAsciiWhitespace with
  | nil => rw [hd] at h; simp at h
  | cons c cs =>
    rw [hd] at h
    have hcw : isAsciiWhitespace c = false := dropWhile_head_false hd
    rw [Option.some.injEq] at h
    have h1 : (c :: cs).takeWhile (fun x => !isAsciiWhitespace x) = t := congrArg Prod.fst h
    rw [List.takeWhile_cons_of_pos (by simp [hcw])] at h1
    intro hte
    rw [hte] at h1
    exact List.cons_ne_nil _ _ h1

/-! Behaviour of the request parser, case by case. -/

lemma parse_nil_400 :
    HttpRequest.parse_from_lines_iterator [] = .error HttpResponse.bad_request_400 := rfl

lemma parse_errline_400 (e : Unit) (rest : List (Except Unit (List Char))) :
    HttpRequest.parse_from_lines_iterator (.error e :: rest)
      = .error HttpResponse.bad_request_400 := rfl

lemma parse_no_token_400 (line : List Char) (rest : List (Except Unit (List Char)))
    (h : nextTok line = none) :
    HttpRequest.parse_from_lines_iterator (.ok line :: rest)
      = .error HttpResponse.bad_request_400 := by
  simp only [HttpRequest.parse_from_lines_iterator, h]

lemma parse_one_token_400 (line : List Char) (rest : List (Except Unit (List Char)))
    (t r : List Char) (h1 : nextTok line = some (t, r)) (h2 : nextTok r = none) :
    HttpRequest.parse_from_lines_iterator (.ok line :: rest)
      = .error HttpResponse.bad_request_400 := by
  simp only [HttpRequest.parse_from_lines_iterator, h1, h2]

lemma parse_unsupported_501 (line : List Char) (rest : List (Except Unit (List Char)))
    (t r t2 r2 : List Char) (h1 : nextTok line = some (t, r))
    (h2 : nextTok r = some (t2, r2)) (hg : t ≠ ("GET").data) (hh : t ≠ ("HEAD").data) :
    HttpRequest.parse_from_lines_iterator (.ok line :: rest)
      = .error ⟨.notImplemented501, none, none⟩ := by
  simp only [HttpRequest.parse_from_lines_iterator, h1, h2, if_neg hg, if_neg hh]

lemma parse_get_ok (f trail : List Char) (rest : List (Except Unit (List Char)))
    (hf : f ≠ []) (hfw : ∀ c ∈ f, isAsciiWhitespace c = false) (ht : tokBoundary trail) :
    HttpRequest.parse_from_lines_iterator (.ok (("GET ").data ++ f ++ trail) :: rest)
      = .ok ⟨.GET, f⟩ := by
  have hline : ("GET ").data ++ f ++ trail = ("GET").data ++ (' ' :: (f ++ trail)) := by
    rw [List.append_assoc]
    rfl
  rw [hline]
  have h1 : nextTok (("GET").data ++ (' ' :: (f ++ trail)))
      = some (("GET").data, ' ' :: (f ++ trail)) :=
    nextTok_token _ _ (by decide) (by decide) (Or.inr ⟨' ', f ++ trail, rfl, by decide⟩)
  have h2 : nextTok (' ' :: (f ++ trail)) = nextTok (f ++ trail) :=
    nextTok_ws_cons _ (by decide)
  have h3 : nextTok (f ++ trail) = some (f, trail) := nextTok_token _ _ hf hfw ht
  simp only [HttpRequest.parse_from_lines_iterator, h1, h2, h3]
  simp

lemma parse_head_ok (f trail : List Char) (rest : List (Except Unit (List Char)))
    (hf : f ≠ []) (hfw : ∀ c ∈ f, isAsciiWhitespace c = false) (ht : tokBoundary trail) :
    HttpRequest.parse_from_lines_iterator (.ok (("HEAD ").data ++ f ++ trail) :: rest)
      = .ok ⟨.HEAD, f⟩ := by
  have hline : ("HEAD ").data ++ f ++ trail = ("HEAD").data ++ (' ' :: (f ++ trail)) := by
    rw [List.append_assoc]
    rfl
  rw [hline]
  have h1 : nextTok (("HEAD").data ++ (' ' :: (f ++ trail)))
      = some (("HEAD").data, ' ' :: (f ++ trail)) :=
    nextTok_token _ _ (by decide) (by decide) (Or.inr ⟨' ', f ++ trail, rfl, by decide⟩)
  have h2 : nextTok (' ' :: (f ++ trail)) = nextTok (f ++ trail) :=
    nextTok_ws_cons _ (by decide)
  have h3 : nextTok (f ++ trail) = some (f, trail) := nextTok_token _ _ hf hfw ht
  simp only [HttpRequest.parse_from_lines_iterator, h1, h2, h3]
  simp

/-- C6: the parser returns the bodiless 400 response when the line sequence
is exhausted, when the first read fails, or when the first line holds fewer
than two whitespace-separated tokens; it returns the bodiless 501 response
when the first token is neither GET nor HEAD; and on a well-formed line it
returns the request with the matching method and the second token verbatim,
ignoring everything after that token. -/
theorem parse_request_spec :
    HttpRequest.parse_from_lines_iterator [] = .error HttpResponse.bad_request_400
      ∧ (∀ (e : Unit) (rest : List (Except Unit (List Char))),
        HttpRequest.parse_from_lines_iterator (.error e :: rest)
          = .error HttpResponse.bad_request_400)
      ∧ (∀ (line : List Char) (rest : List (Except Unit (List Char))),
        nextTok line = none →
          HttpRequest.parse_from_lines_iterator (.ok line :: rest)
            = .error HttpResponse.bad_request_400)
      ∧ (∀ (line : List Char) (rest : List (Except Unit (List Char))) (t r : List Char),
        nextTok line = some (t, r) → nextTok r = none →
          HttpRequest.parse_from_lines_iterator (.ok line :: rest)
            = .error HttpResponse.bad_request_400)
      ∧ (∀ (line : List Char) (rest : List (Except Unit (List Char)))
          (t r t2 r2 : List Char),
        nextTok line = some (t, r) → nextTok r = some (t2, r2) →
        t ≠ ("GET").data → t ≠ ("HEAD").data →
          HttpRequest.parse_from_lines_iterator (.ok line :: rest)
            = .error ⟨.notImplemented501, none, none⟩)
      ∧ ∀ (f trail : List Char) (rest : List (Except Unit (List Char))),
        f ≠ [] → (∀ c ∈ f, isAsciiWhitespace c = false) → tokBoundary trail →
          HttpRequest.parse_from_lines_iterator (.ok (("GET ").data ++ f ++ trail) :: rest)
              = .ok ⟨.GET, f⟩
            ∧ HttpRequest.parse_from_lines_iterator
                (.ok (("HEAD ").data ++ f ++ trail) :: rest) = .ok ⟨.HEAD, f⟩ :=
  ⟨parse_nil_400, parse_errline_400, parse_no_token_400, parse_one_token_400,
   parse_unsupported_501,
   fun f trail rest hf hfw ht =>
     ⟨parse_get_ok f trail rest hf hfw ht, parse_head_ok f trail rest hf hfw ht⟩⟩

/-- C6 witness: the request line of the repository tests, with the ignored
HTTP version token, and a 501 line. -/
theorem parse_request_spec_witness :
    HttpRequest.parse_from_lines_iterator
        [.ok (("GET ").data ++ ("/").data ++ (" HTTP/1.1").data)] = .ok ⟨.GET, ("/").data⟩
      ∧ HttpRequest.parse_from_lines_iterator [.ok (("POST / HTTP/1.1").data)]
        = .error ⟨.notImplemented501, none, none⟩ :=
  ⟨(parse_request_spec.2.2.2.2.2 (("/").data) ((" HTTP/1.1").data) [] (by decide) (by decide)
      (Or.inr ⟨' ', ("HTTP/1.1").data, rfl, by decide⟩)).1,
   parse_request_spec.2.2.2.2.1 (("POST / HTTP/1.1").data) [] (("POST").data)
     ((" / HTTP/1.1").data) (("/").data) ((" HTTP/1.1").data) (by decide) (by decide)
     (by decide) (by decide)⟩

/-- C9 counterexample: the claim quantifies over every request and every
default file name, but the slash-root branch copies the default file name
verbatim, so the default file name double-dot yields the resolved path
dot-slash-dot-dot, which contains a double dot; and the empty target
reaches the final rule and yields exactly dot slash, which ends with a
slash. -/
theorem resolved_path_escape_counterexample :
    (HttpRequest.match_fetch ⟨.GET, ("/").data⟩ (("..").data) = .ok (("./..").data)
        ∧ containsPair '.' '.' (("./..").data) = true)
      ∧ (HttpRequest.match_fetch ⟨.GET, []⟩ (("index.html").data) = .ok (("./").data)
        ∧ endsWithChar '/' (("./").data) = true) := by
  constructor
  · constructor
    · decide
    · decide
  · constructor
    · decide
    · decide

/-- C9 amended: for every request whose target is non-empty and is not the
slash root (so the resolved path does not merely copy the caller-supplied
default file name and the degenerate empty rewrite is excluded), every
path match_fetch returns successfully starts with dot slash, contains no
double-dot and no double-slash substring, and does not end with a slash:
the percent-twenty replacement performed after the safety checks cannot
reintroduce a path-escape pattern. -/
theorem resolved_path_safety (req : HttpRequest) (d path : List Char)
    (h0 : req.fetch ≠ []) (h1 : req.fetch ≠ ("/").data)
    (hok : req.match_fetch d = .ok path) :
    path.take 2 = ("./").data
      ∧ containsPair '/' '/' path = false ∧ containsPair '.' '.' path = false
      ∧ endsWithChar '/' path = false := by
  obtain ⟨ht, _, hp1, hp2, hp3⟩ := match_fetch_ok_final req d path h0 h1 hok
  exact ⟨ht, hp1, hp2, hp3⟩

/-- C9 witness: the amended safety at a concrete percent-twenty target. -/
theorem resolved_path_safety_witness :
    (("./a b.png").data).take 2 = ("./").data
      ∧ containsPair '/' '/' (("./a b.png").data) = false
      ∧ containsPair '.' '.' (("./a b.png").data) = false
      ∧ endsWithChar '/' (("./a b.png").data) = false :=
  resolved_path_safety ⟨.GET, ("/a%20b.png").data⟩ (("index.html").data)
    (("./a b.png").data) (by decide) (by decide) (by decide)

/-! Helper lemmas for the handler path-extraction claim. -/

lemma parse_ok_fetch_ne_nil (lines : List (Except Unit (List Char))) (req : HttpRequest)
    (h : HttpRequest.parse_from_lines_iterator lines = .ok req) : req.fetch ≠ [] := by
  cases lines with
  | nil => simp [HttpRequest.parse_from_lines_iterator] at h
  | cons l rest =>
    cases l with
    | error e => simp [HttpRequest.parse_from_lines_iterator] at h
    | ok line =>
      cases h1 : nextTok line with
      | none => simp [HttpRequest.parse_from_lines_iterator, h1] at h
      | some p1 =>
        obtain ⟨t, r⟩ := p1
        cases h2 : nextTok r with
        | none => simp [HttpRequest.parse_from_lines_iterator, h1, h2] at h
        | some p2 =>
          obtain ⟨t2, r2⟩ := p2
          simp only [HttpRequest.parse_from_lines_iterator, h1, h2] at h
          split_ifs at h with hg hh
          · rw [Except.ok.injEq] at h
            subst h
            exact nextTok_some_ne_nil h2
          · rw [Except.ok.injEq] at h
            subst h
            exact nextTok_some_ne_nil h2

lemma match_fetch_ok_len (req : HttpRequest) (d path : List Char)
    (h0 : req.fetch ≠ []) (hd : d ≠ [])
    (hok : req.match_fetch d = .ok path) :
    3 ≤ path.length ∧ path.take 2 = ("./").data := by
  by_cases h1 : req.fetch = ("/").data
  · unfold HttpRequest.match_fetch at hok
    rw [if_pos h1] at hok
    rw [Except.ok.injEq] at hok
    subst hok
    obtain ⟨c, cs, rfl⟩ := List.exists_cons_of_ne_nil hd
    constructor
    · simp only [List.length_append, List.length_cons]
      omega
    · rfl
  · obtain ⟨ht, hlen, _, _, _⟩ := match_fetch_ok_final req d path h0 h1 hok
    exact ⟨hlen, ht⟩

lemma respond_total (fs : List Char → Option (List Char))
    (lines : List (Except Unit (List Char))) (d : List Char)
    (e : Option (List Char)) (hd : d ≠ []) :
    respond_http_request fs lines d e ≠ none := by
  intro hnone
  unfold respond_http_request at hnone
  split at hnone
  · exact Option.noConfusion hnone
  · rename_i request hparse
    split at hnone
    · exact Option.noConfusion hnone
    · rename_i fetch hmf
      have hf0 : request.fetch ≠ [] := parse_ok_fetch_ne_nil _ _ hparse
      obtain ⟨hlen, _⟩ := match_fetch_ok_len request d fetch hf0 hd hmf
      split at hnone
      · split_ifs at hnone
        split at hnone
        · exact Option.noConfusion hnone
        · split at hnone
          · split at hnone
            · exact Option.noConfusion hnone
            · exact Option.noConfusion hnone
          · exact Option.noConfusion hnone
      · rename_i hshape
        rcases fetch with _ | ⟨a, _ | ⟨b, _ | ⟨c, rest2⟩⟩⟩
        · simp at hlen
        · simp at hlen
        · simp at hlen
        · exact hshape a b c rest2 rfl

/-- C10: every parser-produced target is non-empty; with a non-empty
target and a non-empty default file name every successful resolution has
at least three characters and begins with dot slash; hence the three
character extractions in respond_http_request always find a character and
the handler never reaches the modelled panic outcome. -/
theorem handler_path_extraction_safe :
    (∀ (lines : List (Except Unit (List Char))) (req : HttpRequest),
      HttpRequest.parse_from_lines_iterator lines = .ok req → req.fetch ≠ [])
      ∧ (∀ (req : HttpRequest) (d path : List Char), req.fetch ≠ [] → d ≠ [] →
        req.match_fetch d = .ok path → 3 ≤ path.length ∧ path.take 2 = ("./").data)
      ∧ ∀ (fs : List Char → Option (List Char)) (lines : List (Except Unit (List Char)))
          (d : List Char) (e : Option (List Char)), d ≠ [] →
          respond_http_request fs lines d e ≠ none :=
  ⟨parse_ok_fetch_ne_nil, match_fetch_ok_len, respond_total⟩

/-- C10 witness: the handler produces a response at a concrete connection
with an empty file system. -/
theorem handler_path_extraction_safe_witness :
    respond_http_request (fun _ => none) [.ok (("GET /x").data)] (("index.html").data)
      none ≠ none :=
  handler_path_extraction_safe.2.2 (fun _ => none) [.ok (("GET /x").data)]
    (("index.html").data) none (by decide)

/-! The construction invariant of responses: content_length is present
exactly when content is present, and then equals the content length. -/

def respInvariant (r : HttpResponse) : Bool :=
  match r.content, r.content_length with
  | some c, some n => n == c.length
  | none, none => true
  | _, _ => false

lemma parse_error_invariant (lines : List (Except Unit (List Char))) (resp : HttpResponse)
    (h : HttpRequest.parse_from_lines_iterator lines = .error resp) :
    respInvariant resp = true := by
  cases lines with
  | nil =>
    rw [parse_nil_400, Except.error.injEq] at h
    subst h
    decide
  | cons l rest =>
    cases l with
    | error e =>
      rw [parse_errline_400, Except.error.injEq] at h
      subst h
      decide
    | ok line =>
      cases h1 : nextTok line with
      | none =>
        rw [parse_no_token_400 line rest h1, Except.error.injEq] at h
        subst h
        decide
      | some p1 =>
        obtain ⟨t, r⟩ := p1
        cases h2 : nextTok r with
        | none =>
          rw [parse_one_token_400 line rest t r h1 h2, Except.error.injEq] at h
          subst h
          decide
        | some p2 =>
          obtain ⟨t2, r2⟩ := p2
          simp only [HttpRequest.parse_from_lines_iterator, h1, h2] at h
          split_ifs at h with hg hh
          rw [Except.error.injEq] at h
          subst h
          decide

lemma match_fetch_error_invariant (req : HttpRequest) (d : List Char) (resp : HttpResponse)
    (h : req.match_fetch d = .error resp) : respInvariant resp = true := by
  unfold HttpRequest.match_fetch at h
  split_ifs at h
  all_goals (rw [Except.error.injEq] at h; subst h; simp [respInvariant])

lemma respond_invariant (fs : List Char → Option (List Char))
    (lines : List (Except Unit (List Char))) (d : List Char) (e : Option (List Char))
    (r : HttpResponse) (h : respond_http_request fs lines d e = some r) :
    respInvariant r = true := by
  unfold respond_http_request at h
  split at h
  · rename_i resp hparse
    rw [Option.some.injEq] at h
    subst h
    exact parse_error_invariant _ _ hparse
  · rename_i request hparse
    split at h
    · rename_i resp hmf
      rw [Option.some.injEq] at h
      subst h
      exact match_fetch_error_invariant _ _ _ hmf
    · rename_i fetch hmf
      split at h
      · split_ifs at h
        · rw [Option.some.injEq] at h
          subst h
          decide
        · split at h
          · rw [Option.some.injEq] at h
            subst h
            simp [respInvariant]
          · split at h
            · split at h
              · rw [Option.some.injEq] at h
                subst h
                simp [respInvariant]
              · rw [Option.some.injEq] at h
                subst h
                decide
            · rw [Option.some.injEq] at h
              subst h
              decide
      · exact Option.noConfusion h

/-- C8: every response the core constructs satisfies the invariant that
content_length is present exactly when content is present and then equals
the content length: this holds for every error response of the parser,
every error response of the resolver, and every response the handler
writes. -/
theorem response_invariant_everywhere :
    (∀ (lines : List (Except Unit (List Char))) (resp : HttpResponse),
      HttpRequest.parse_from_lines_iterator lines = .error resp → respInvariant resp = true)
      ∧ (∀ (req : HttpRequest) (d : List Char) (resp : HttpResponse),
        req.match_fetch d = .error resp → respInvariant resp = true)
      ∧ ∀ (fs : List Char → Option (List Char)) (lines : List (Except Unit (List Char)))
          (d : List Char) (e : Option (List Char)) (r : HttpResponse),
          respond_http_request fs lines d e = some r → respInvariant r = true :=
  ⟨parse_error_invariant, match_fetch_error_invariant, respond_invariant⟩

/-- C8 witness: the invariant at the handler output for a concrete
connection whose file system lookup fails. -/
theorem response_invariant_everywhere_witness :
    respInvariant ⟨.notFound404, none, none⟩ = true :=
  response_invariant_everywhere.2.2 (fun _ => none) [.ok (("GET /x").data)]
    (("index.html").data) none ⟨.notFound404, none, none⟩ (by decide)
